import Mathlib

/-!
Shallow embedding of the batch processing engine of the tagline repository
(src/App.tsx, src/components/BatchCard.tsx, src/types.ts, src/services/geminiService.ts).

Modelling conventions:
* The React state (batch array, base64Store map, selectedKeywordsMap record,
  isProcessingAll flag) is gathered into one EngineState record; each setBatch
  or map/record mutation in the source is one atomic state-to-state function,
  matching the single-threaded JavaScript event loop in which every such write
  runs to completion before any other code observes the state.
* The external provider (analyzeImage in geminiService.ts) is passed in as an
  oracle of type Provider mapping the payload string to either a parsed
  response or a thrown-error message; the try/catch in analyzeSingle is
  modelled by case analysis on that oracle.
* Image pixel data is abstracted: the JPEG payload and the object URL are
  opaque strings derived from the file name, while the geometric content of
  resizeImage (the dimension clamping arithmetic) is modelled exactly over the
  rationals.  Browser float rounding and canvas pixel quantisation are outside
  the model.
* JavaScript Map and plain-object records are modelled as association lists
  with replace-on-set semantics.
-/

namespace Tagline

/-- Item lifecycle status, from the BatchItem type in src/types.ts. -/
inductive Status
  | pending
  | processing
  | completed
  | error
deriving DecidableEq

/-- One keyword with its relevance score and platform tags (src/types.ts). -/
structure KeywordMetadata where
  word : String
  relevance : Int
  platforms : List String
deriving DecidableEq

/-- Immutable snapshot of one successful analysis (src/types.ts). -/
structure AnalysisResult where
  taglines : List String
  keywords : List KeywordMetadata
  description : String
  suggestedPlatforms : List String
deriving DecidableEq

/-- Raw provider response shape (src/types.ts GeminiResponse). -/
structure GeminiResponse where
  taglines : List String
  keywords : List KeywordMetadata
  description : String
  platforms : List String
deriving DecidableEq

/-- One submitted image and its lifecycle (src/types.ts BatchItem). -/
structure BatchItem where
  id : String
  image : String
  previewUrl : String
  status : Status
  result : Option AnalysisResult := none
  error : Option String := none
deriving DecidableEq

/-- Association-list lookup, modelling Map.get / record indexing. -/
def assocGet {α : Type} : List (String × α) → String → Option α
  | [], _ => none
  | (k2, v) :: rest, k => if k2 = k then some v else assocGet rest k

/-- Association-list insert-or-replace, modelling Map.set / record spread update. -/
def assocSet {α : Type} : List (String × α) → String → α → List (String × α)
  | [], k, v => [(k, v)]
  | (k2, v2) :: rest, k, v =>
      if k2 = k then (k, v) :: rest else (k2, v2) :: assocSet rest k v

/-- Association-list key removal, modelling Map.delete / the delete operator. -/
def assocDelete {α : Type} : List (String × α) → String → List (String × α)
  | [], _ => []
  | (k2, v) :: rest, k =>
      if k2 = k then assocDelete rest k else (k2, v) :: assocDelete rest k

/-- The mutable engine state held by the App component (src/App.tsx:157-168):
the batch array, the base64Store ref map, the selectedKeywordsMap record and
the isProcessingAll flag. -/
structure EngineState where
  batch : List BatchItem
  base64Store : List (String × String)
  selectedKeywordsMap : List (String × List String)
  isProcessingAll : Bool
deriving DecidableEq

/-- An input file as submitted by the user: name, declared MIME type and pixel
dimensions (the fields of the browser File / decoded Image the source reads). -/
structure InputFile where
  name : String
  type : String
  width : ℚ
  height : ℚ
deriving DecidableEq

/-- CONCURRENCY_LIMIT = 5 (src/App.tsx:8). -/
def CONCURRENCY_LIMIT : Nat := 5

/-- MAX_IMAGE_DIMENSION = 1024 (src/App.tsx:9). -/
def MAX_IMAGE_DIMENSION : ℚ := 1024

/-- Output of resizeImage: the re-encoded payload and preview handle together
with the dimensions and quality used for the re-encode.  The payload bytes are
abstracted to opaque strings derived from the file name. -/
structure ResizedImage where
  base64 : String
  preview : String
  width : ℚ
  height : ℚ
  quality : ℚ
deriving DecidableEq

/-- resizeImage (src/App.tsx:12-54): clamp the larger dimension to
MAX_IMAGE_DIMENSION scaling the other proportionally (width-major branch when
width exceeds height, height-major branch otherwise), re-encode as JPEG at
quality 0.7, and allocate an object-URL preview for the original file. -/
def resizeImage (f : InputFile) : ResizedImage :=
  let wh : ℚ × ℚ :=
    if f.width > f.height then
      if f.width > MAX_IMAGE_DIMENSION then
        (MAX_IMAGE_DIMENSION, f.height * (MAX_IMAGE_DIMENSION / f.width))
      else (f.width, f.height)
    else
      if f.height > MAX_IMAGE_DIMENSION then
        (f.width * (MAX_IMAGE_DIMENSION / f.height), MAX_IMAGE_DIMENSION)
      else (f.width, f.height)
  { base64 := "data:image/jpeg;" ++ f.name
    preview := "blob:" ++ f.name
    width := wh.1
    height := wh.2
    quality := 7 / 10 }

/-- Character-list test that the first argument starts with the second;
kernel-computable model of the JavaScript String startsWith method. -/
def charsStartWith : List Char → List Char → Bool
  | _, [] => true
  | [], _ :: _ => false
  | c :: s, d :: p => c == d && charsStartWith s p

/-- The MIME filter applied at intake (src/App.tsx:193): the declared content
type starts with image/. -/
def isImageFile (f : InputFile) : Bool :=
  charsStartWith f.type.data "image/".data

/-- One element of the intake pipeline body (src/App.tsx:194-197): resize the
file, draw a fresh id, store the payload under the id, and build the pending
item.  freshId supplies the ids the source draws from Math.random. -/
def mkPendingItem (freshId : Nat → String) (n : Nat) (f : InputFile) :
    BatchItem × (String × String) :=
  let r := resizeImage f
  ({ id := freshId n, image := "", previewUrl := r.preview, status := Status.pending },
   (freshId n, r.base64))

/-- addFilesToBatch (src/App.tsx:187-205): return unchanged on an empty file
list; otherwise keep only files whose declared type starts with image/, resize
each, record each payload in base64Store, and prepend the new pending items to
the batch.  Files failing the MIME filter are dropped by the filter before the
resize map runs; no code path in the source records or raises any error for
them. -/
def addFilesToBatch (freshId : Nat → String) (files : List InputFile)
    (st : EngineState) : EngineState :=
  if files = [] then st
  else
    let entries := ((files.filter isImageFile).enum).map
      (fun p => mkPendingItem freshId p.1 p.2)
    { batch := entries.map Prod.fst ++ st.batch
      base64Store := entries.foldl (fun m e => assocSet m e.2.1 e.2.2) st.base64Store
      selectedKeywordsMap := st.selectedKeywordsMap
      isProcessingAll := st.isProcessingAll }

/-- The single setBatch write pattern used throughout the source: map over the
batch, rewriting the item whose id matches and leaving every other item as is. -/
def setItem (id : String) (f : BatchItem → BatchItem) (batch : List BatchItem) :
    List BatchItem :=
  batch.map (fun i => if i.id = id then f i else i)

/-- First atomic write of analyzeSingle (src/App.tsx:279): set the targeted
item to processing and clear its error field.  The result field is not
touched by this write. -/
def startProcessing (id : String) (st : EngineState) : EngineState :=
  { st with batch :=
      setItem id (fun i => { i with status := Status.processing, error := none }) st.batch }

/-- Success write of analyzeSingle (src/App.tsx:293): set status completed and
store the result. -/
def completeItem (id : String) (r : AnalysisResult) (st : EngineState) : EngineState :=
  { st with batch :=
      setItem id (fun i => { i with status := Status.completed, result := some r }) st.batch }

/-- Failure write of analyzeSingle (src/App.tsx:282 and 295): set status error
and store the message.  The result field is not cleared by this write. -/
def failItem (id : String) (msg : String) (st : EngineState) : EngineState :=
  { st with batch :=
      setItem id (fun i => { i with status := Status.error, error := some msg }) st.batch }

/-- Outcome of one provider call: a parsed response, or the message of the
error thrown out of analyzeImage (transport failure, empty response, or JSON
parse failure — geminiService.ts throws in all three cases and analyzeSingle
catches the thrown Error). -/
inductive ProviderOutcome
  | success (response : GeminiResponse)
  | failure (msg : String)
deriving DecidableEq

/-- Provider oracle: maps the payload sent to analyzeImage to its outcome. -/
abbrev Provider := String → ProviderOutcome

/-- Field shuffle from the raw provider response to the stored result
(src/App.tsx:287-292). -/
def toAnalysisResult (g : GeminiResponse) : AnalysisResult :=
  { taglines := g.taglines
    keywords := g.keywords
    description := g.description
    suggestedPlatforms := g.platforms }

/-- analyzeSingle (src/App.tsx:278-297): set the item processing and clear its
error; look up the payload, failing with the message Image data lost when it is
absent (before any provider call); otherwise call the provider and record
either the completed result or the caught error message.  The second component
lists the payloads actually sent to the provider. -/
def analyzeSingle (provider : Provider) (id : String) (st : EngineState) :
    EngineState × List String :=
  let st1 := startProcessing id st
  match assocGet st1.base64Store id with
  | none => (failItem id "Image data lost" st1, [])
  | some imageData =>
      match provider imageData with
      | ProviderOutcome.success g => (completeItem id (toAnalysisResult g) st1, [imageData])
      | ProviderOutcome.failure m => (failItem id m st1, [imageData])

/-- removeItem (src/App.tsx:219-231): drop the item from the batch, delete its
payload from base64Store and its entry from selectedKeywordsMap.  (The object
URL revocation is an external browser effect outside the state model.) -/
def removeItem (id : String) (st : EngineState) : EngineState :=
  { batch := st.batch.filter (fun i => i.id != id)
    base64Store := assocDelete st.base64Store id
    selectedKeywordsMap := assocDelete st.selectedKeywordsMap id
    isProcessingAll := st.isProcessingAll }

/-- The snapshot filter of processAll (src/App.tsx:300): items whose status is
pending or error at invocation. -/
def eligible (st : EngineState) : List BatchItem :=
  st.batch.filter (fun i => i.status == Status.pending || i.status == Status.error)

/-- Observable outcome of one processAll invocation: the final state, the
payloads sent to the provider, and the number of workers created by the
Array(Math.min(CONCURRENCY_LIMIT, queue.length)) expression (src/App.tsx:304). -/
structure ProcessAllTrace where
  finalState : EngineState
  providerCalls : List String
  workers : Nat
deriving DecidableEq

/-- The worker pool drain (src/App.tsx:304-309): the workers share one queue
and each queue.shift() removes the current head, so across any interleaving
the queue entries are analyzed one at a time, head first, each exactly once;
runQueue is that drain order.  analyzeSingle calls on distinct ids write
disjoint parts of the batch, so the final state does not depend on how the
provider awaits interleave. -/
def runQueue (provider : Provider) : List String → EngineState → EngineState × List String
  | [], st => (st, [])
  | id :: rest, st =>
      let r1 := analyzeSingle provider id st
      let r2 := runQueue provider rest r1.1
      (r2.1, r1.2 ++ r2.2)

/-- processAll (src/App.tsx:299-312): snapshot the pending-or-error items;
return unchanged (no workers, no calls) when the snapshot is empty or a run is
already in progress; otherwise raise the in-progress flag, create
min(CONCURRENCY_LIMIT, queue.length) workers that drain the snapshot queue,
and clear the flag when all workers finish. -/
def processAll (provider : Provider) (st : EngineState) : ProcessAllTrace :=
  let pendingItems := eligible st
  if pendingItems = [] ∨ st.isProcessingAll = true then
    { finalState := st, providerCalls := [], workers := 0 }
  else
    let r := runQueue provider (pendingItems.map BatchItem.id)
      { st with isProcessingAll := true }
    { finalState := { r.1 with isProcessingAll := false }
      providerCalls := r.2
      workers := min CONCURRENCY_LIMIT pendingItems.length }

/-- handleToggleKeyword (src/App.tsx:314-319): read the current selection list
for the item (empty when absent), remove the word when present or append it
when absent, and write the list back under the item id.  The entry is written
back even when the resulting list is empty. -/
def handleToggleKeyword (itemId keyword : String) (st : EngineState) : EngineState :=
  let current := (assocGet st.selectedKeywordsMap itemId).getD []
  let next :=
    if keyword ∈ current then current.filter (fun k => k != keyword)
    else current ++ [keyword]
  { st with selectedKeywordsMap := assocSet st.selectedKeywordsMap itemId next }

/-- handleSelectAllInItem (src/App.tsx:321-323): overwrite the selection entry
with the words of the given keyword list. -/
def handleSelectAllInItem (itemId : String) (keywords : List KeywordMetadata)
    (st : EngineState) : EngineState :=
  { st with selectedKeywordsMap :=
      assocSet st.selectedKeywordsMap itemId (keywords.map KeywordMetadata.word) }

/-- One shared-queue scheduling event of the processAll worker pool
(src/App.tsx:305-308): some worker executes queue.shift(), which removes the
current head of the shared queue and hands it to that worker; the second
component accumulates the items handed out, in dequeue order. -/
inductive QueueStep : List String × List String → List String × List String → Prop
  | dequeue (id : String) (rest done : List String) :
      QueueStep (id :: rest, done) (rest, done ++ [id])

/-- Per-item status transitions actually performed by the engine writes: keep
the status, move any targeted item to processing (the unconditional first
write of analyzeSingle), or move a processing item to a terminal status. -/
def statusStepAllowed (a b : Status) : Prop :=
  b = a ∨ b = Status.processing
    ∨ (a = Status.processing ∧ (b = Status.completed ∨ b = Status.error))

/-- The error field is populated exactly on items whose status is error. -/
def errOk (st : EngineState) : Prop :=
  ∀ i ∈ st.batch, (i.status = Status.error ↔ i.error ≠ none)

/-- The result field is populated exactly on items whose status is completed. -/
def resultOk (st : EngineState) : Prop :=
  ∀ i ∈ st.batch, (i.status = Status.completed ↔ i.result ≠ none)

/-! Concrete fixtures used by counterexamples and witnesses. -/

/-- A file declaring an image MIME type. -/
def imgFile : InputFile := { name := "a.png", type := "image/png", width := 10, height := 10 }

/-- A file declaring a non-image MIME type. -/
def textFile : InputFile := { name := "b.txt", type := "text/plain", width := 10, height := 10 }

/-- A deterministic id supply standing in for the Math.random id generator. -/
def fid0 : Nat → String := fun n => "id" ++ toString n

/-- The empty engine state (initial React state, src/App.tsx:157-168). -/
def st0 : EngineState :=
  { batch := [], base64Store := [], selectedKeywordsMap := [], isProcessingAll := false }

/-- A sample stored analysis result. -/
def sampleResult : AnalysisResult :=
  { taglines := ["t"], keywords := [], description := "d", suggestedPlatforms := [] }

/-- An item that has completed analysis. -/
def completedItem : BatchItem :=
  { id := "x", image := "", previewUrl := "p", status := Status.completed,
    result := some sampleResult, error := none }

/-- A state holding one completed item together with its stored payload. -/
def stCompleted : EngineState :=
  { batch := [completedItem], base64Store := [("x", "payload")],
    selectedKeywordsMap := [], isProcessingAll := false }

/-- A provider oracle whose every call fails with message boom. -/
def failingProvider : Provider := fun _ => ProviderOutcome.failure "boom"

/-- A pending item with id x. -/
def pendingItemX : BatchItem :=
  { id := "x", image := "", previewUrl := "p", status := Status.pending }

/-- A state with one pending item and its payload. -/
def stX : EngineState :=
  { batch := [pendingItemX], base64Store := [("x", "d")],
    selectedKeywordsMap := [], isProcessingAll := false }

/-- stX with one keyword already selected for item x. -/
def stSel : EngineState :=
  { batch := [pendingItemX], base64Store := [("x", "d")],
    selectedKeywordsMap := [("x", ["cat"])], isProcessingAll := false }

/-- A state with an eligible item while a batch run is already in progress. -/
def stBusy : EngineState :=
  { batch := [pendingItemX], base64Store := [("x", "d")],
    selectedKeywordsMap := [], isProcessingAll := true }

/-- A sample successful provider response. -/
def gOk : GeminiResponse :=
  { taglines := ["t"], keywords := [], description := "d", platforms := ["p"] }

/-- A provider oracle that succeeds on payload pa and fails otherwise. -/
def provMix : Provider :=
  fun d => if d = "pa" then ProviderOutcome.success gOk else ProviderOutcome.failure "bad"

/-- A pending item with id a. -/
def itemA : BatchItem := { id := "a", image := "", previewUrl := "qa", status := Status.pending }

/-- A pending item with id b. -/
def itemB : BatchItem := { id := "b", image := "", previewUrl := "qb", status := Status.pending }

/-- A two-item pending state whose payloads make provMix succeed on a and fail on b. -/
def stMix : EngineState :=
  { batch := [itemA, itemB], base64Store := [("a", "pa"), ("b", "pb")],
    selectedKeywordsMap := [], isProcessingAll := false }

/-- The item a after the stMix batch run: completed with the stored result. -/
def itemAfterA : BatchItem :=
  { id := "a", image := "", previewUrl := "qa", status := Status.completed,
    result := some (toAnalysisResult gOk), error := none }

/-- A state with seven pending items, for the worker-count scenario. -/
def st7 : EngineState :=
  { batch := (List.range 7).map
      (fun n => { id := toString n, image := "", previewUrl := "q", status := Status.pending }),
    base64Store := [], selectedKeywordsMap := [], isProcessingAll := false }

/-- An oversized input image, 2048 by 512. -/
def bigFile : InputFile :=
  { name := "big", type := "image/png", width := 2048, height := 512 }

/-! Helper lemmas about the association-list operations. -/

theorem assocGet_delete {α : Type} (m : List (String × α)) (k : String) :
    assocGet (assocDelete m k) k = none := by
  induction m with
  | nil => rfl
  | cons a t ih =>
      rcases a with ⟨k2, v⟩
      by_cases h : k2 = k
      · simpa [assocDelete, h] using ih
      · simpa [assocDelete, assocGet, h] using ih

theorem assocGet_set_self {α : Type} (m : List (String × α)) (k : String) (v : α) :
    assocGet (assocSet m k v) k = some v := by
  induction m with
  | nil => simp [assocSet, assocGet]
  | cons a t ih =>
      rcases a with ⟨k2, v2⟩
      by_cases h : k2 = k
      · simp [assocSet, h, assocGet]
      · simpa [assocSet, assocGet, h] using ih

theorem assocGet_set_ne {α : Type} (m : List (String × α)) (k2 k : String) (v : α)
    (h : k2 ≠ k) : assocGet (assocSet m k2 v) k = assocGet m k := by
  induction m with
  | nil => simp [assocSet, assocGet, h]
  | cons a t ih =>
      rcases a with ⟨k3, v3⟩
      by_cases h3 : k3 = k2
      · simp [assocSet, h3, assocGet, h]
      · by_cases h4 : k3 = k
        · simp [assocSet, h3, assocGet, h4, Ne.symm h]
        · simpa [assocSet, assocGet, h3, h4] using ih

/-! Helper lemmas about setItem and the per-item writes. -/

theorem mem_setItem_iff {id : String} {f : BatchItem → BatchItem} {l : List BatchItem}
    {x : BatchItem} :
    x ∈ setItem id f l ↔ ∃ y ∈ l, x = if y.id = id then f y else y := by
  simp only [setItem, List.mem_map, eq_comm]

theorem setItem_of_forall_ne {id : String} {f : BatchItem → BatchItem} {l : List BatchItem}
    (h : ∀ x ∈ l, x.id ≠ id) : setItem id f l = l := by
  induction l with
  | nil => rfl
  | cons a t ih =>
      have ha := h a (List.mem_cons_self a t)
      simp only [setItem, List.map_cons, if_neg ha, List.cons.injEq, true_and]
      exact ih (fun x hx => h x (List.mem_cons_of_mem a hx))

theorem zip_self_map {α : Type} (f : α → α) (l : List α) :
    l.zip (l.map f) = l.map (fun x => (x, f x)) := by
  induction l with
  | nil => rfl
  | cons a t ih => simp [ih]

theorem mem_startProcessing_target {id : String} {st : EngineState} {y : BatchItem}
    (hy : y ∈ (startProcessing id st).batch) (hid : y.id = id) :
    y.status = Status.processing ∧ y.error = none := by
  rcases mem_setItem_iff.1 hy with ⟨z, hz, hyz⟩
  by_cases hzid : z.id = id
  · rw [if_pos hzid] at hyz; subst hyz; exact ⟨rfl, rfl⟩
  · rw [if_neg hzid] at hyz; subst hyz; exact absurd hid hzid

theorem mem_startProcessing_ne {id : String} {st : EngineState} {y : BatchItem}
    (hy : y ∈ (startProcessing id st).batch) (hne : y.id ≠ id) : y ∈ st.batch := by
  rcases mem_setItem_iff.1 hy with ⟨z, hz, hyz⟩
  by_cases hzid : z.id = id
  · rw [if_pos hzid] at hyz; subst hyz; exact absurd hzid hne
  · rw [if_neg hzid] at hyz; subst hyz; exact hz

theorem startProcessing_base64 (id : String) (st : EngineState) :
    (startProcessing id st).base64Store = st.base64Store := rfl

theorem analyzeSingle_eq_of_none {p : Provider} {id : String} {st : EngineState}
    (h : assocGet st.base64Store id = none) :
    analyzeSingle p id st = (failItem id "Image data lost" (startProcessing id st), []) := by
  simp [analyzeSingle, startProcessing_base64, h]

theorem analyzeSingle_eq_of_success {p : Provider} {id : String} {st : EngineState}
    {d : String} {g : GeminiResponse}
    (h : assocGet st.base64Store id = some d) (hp : p d = ProviderOutcome.success g) :
    analyzeSingle p id st
      = (completeItem id (toAnalysisResult g) (startProcessing id st), [d]) := by
  simp [analyzeSingle, startProcessing_base64, h, hp]

theorem analyzeSingle_eq_of_failure {p : Provider} {id : String} {st : EngineState}
    {d : String} {m : String}
    (h : assocGet st.base64Store id = some d) (hp : p d = ProviderOutcome.failure m) :
    analyzeSingle p id st = (failItem id m (startProcessing id st), [d]) := by
  simp [analyzeSingle, startProcessing_base64, h, hp]

/-- The final batch write of analyzeSingle is one setItem over the
intermediate processing state, and that write is either the completion write
(status completed, result stored) or a failure write (status error, message
stored). -/
theorem analyzeSingle_batch_spec (p : Provider) (id : String) (st : EngineState) :
    ∃ f : BatchItem → BatchItem,
      (analyzeSingle p id st).1.batch = setItem id f (startProcessing id st).batch
      ∧ ((∃ r, ∀ y, f y = { y with status := Status.completed, result := some r })
          ∨ (∃ m, ∀ y, f y = { y with status := Status.error, error := some m })) := by
  cases hma : assocGet st.base64Store id with
  | none =>
      rw [analyzeSingle_eq_of_none hma]
      exact ⟨fun i => { i with status := Status.error, error := some "Image data lost" },
        rfl, Or.inr ⟨"Image data lost", fun y => rfl⟩⟩
  | some d =>
      cases hp : p d with
      | success g =>
          rw [analyzeSingle_eq_of_success hma hp]
          refine ⟨fun i => { i with status := Status.completed, result := some (toAnalysisResult g) }, rfl, ?_⟩
          exact Or.inl ⟨toAnalysisResult g, fun y => rfl⟩
      | failure m =>
          rw [analyzeSingle_eq_of_failure hma hp]
          exact ⟨fun i => { i with status := Status.error, error := some m },
            rfl, Or.inr ⟨m, fun y => rfl⟩⟩

theorem analyzeSingle_fields (p : Provider) (id : String) (st : EngineState) :
    (analyzeSingle p id st).1.base64Store = st.base64Store
    ∧ (analyzeSingle p id st).1.selectedKeywordsMap = st.selectedKeywordsMap
    ∧ (analyzeSingle p id st).1.isProcessingAll = st.isProcessingAll := by
  cases hma : assocGet st.base64Store id with
  | none => rw [analyzeSingle_eq_of_none hma]; exact ⟨rfl, rfl, rfl⟩
  | some d =>
      cases hp : p d with
      | success g => rw [analyzeSingle_eq_of_success hma hp]; exact ⟨rfl, rfl, rfl⟩
      | failure m => rw [analyzeSingle_eq_of_failure hma hp]; exact ⟨rfl, rfl, rfl⟩

theorem mem_analyzeSingle_ne {p : Provider} {id : String} {st : EngineState} {i : BatchItem}
    (h : i ∈ (analyzeSingle p id st).1.batch) (hne : i.id ≠ id) : i ∈ st.batch := by
  obtain ⟨f, hb, hf⟩ := analyzeSingle_batch_spec p id st
  rw [hb] at h
  rcases mem_setItem_iff.1 h with ⟨y, hy, hxy⟩
  by_cases hyid : y.id = id
  · rw [if_pos hyid] at hxy
    have hfy : (f y).id = y.id := by
      rcases hf with ⟨r, hr⟩ | ⟨m, hm⟩
      · rw [hr y]
      · rw [hm y]
    rw [hxy] at hne
    rw [hfy, hyid] at hne
    exact absurd rfl hne
  · rw [if_neg hyid] at hxy; subst hxy
    exact mem_startProcessing_ne hy hyid

theorem analyzeSingle_terminal {p : Provider} {id : String} {st : EngineState} {i : BatchItem}
    (h : i ∈ (analyzeSingle p id st).1.batch) (hid : i.id = id) :
    i.status = Status.completed ∨ i.status = Status.error := by
  obtain ⟨f, hb, hf⟩ := analyzeSingle_batch_spec p id st
  rw [hb] at h
  rcases mem_setItem_iff.1 h with ⟨y, hy, hxy⟩
  by_cases hyid : y.id = id
  · rw [if_pos hyid] at hxy; subst hxy
    rcases hf with ⟨r, hr⟩ | ⟨m, hm⟩
    · rw [hr y]; exact Or.inl rfl
    · rw [hm y]; exact Or.inr rfl
  · rw [if_neg hyid] at hxy; subst hxy
    exact absurd hid hyid

theorem failItem_target {id : String} {m : String} {st : EngineState} {i : BatchItem}
    (h : i ∈ (failItem id m st).batch) (hid : i.id = id) :
    i.status = Status.error ∧ i.error = some m := by
  rcases mem_setItem_iff.1 h with ⟨y, hy, hxy⟩
  by_cases hyid : y.id = id
  · rw [if_pos hyid] at hxy; subst hxy; exact ⟨rfl, rfl⟩
  · rw [if_neg hyid] at hxy; subst hxy; exact absurd hid hyid

/-! Helper lemmas about the worker-pool queue drain. -/

theorem runQueue_fields (p : Provider) (q : List String) :
    ∀ st : EngineState,
      (runQueue p q st).1.base64Store = st.base64Store
      ∧ (runQueue p q st).1.selectedKeywordsMap = st.selectedKeywordsMap
      ∧ (runQueue p q st).1.isProcessingAll = st.isProcessingAll := by
  induction q with
  | nil => exact fun st => ⟨rfl, rfl, rfl⟩
  | cons a t ih =>
      intro st
      have h1 := analyzeSingle_fields p a st
      have h2 := ih (analyzeSingle p a st).1
      exact ⟨h2.1.trans h1.1, h2.2.1.trans h1.2.1, h2.2.2.trans h1.2.2⟩

theorem mem_runQueue_not_target (p : Provider) (q : List String) :
    ∀ (st : EngineState) (i : BatchItem),
      i ∈ (runQueue p q st).1.batch → i.id ∉ q → i ∈ st.batch := by
  induction q with
  | nil => exact fun st i h _ => h
  | cons a t ih =>
      intro st i h hq
      have h2 := ih (analyzeSingle p a st).1 i h (fun hmem => hq (List.mem_cons_of_mem a hmem))
      exact mem_analyzeSingle_ne h2 (fun heq => hq (heq ▸ List.mem_cons_self a t))

theorem runQueue_terminal (p : Provider) (q : List String) :
    ∀ st : EngineState, q.Nodup → ∀ i ∈ (runQueue p q st).1.batch, i.id ∈ q →
      i.status = Status.completed ∨ i.status = Status.error := by
  induction q with
  | nil => exact fun st _ i _ hid => absurd hid (List.not_mem_nil _)
  | cons a t ih =>
      intro st hq i h hid
      rcases List.mem_cons.1 hid with heq | hmem
      · have hnotin : i.id ∉ t := by rw [heq]; exact (List.nodup_cons.1 hq).1
        have h2 := mem_runQueue_not_target p t (analyzeSingle p a st).1 i h hnotin
        exact analyzeSingle_terminal h2 heq
      · exact ih (analyzeSingle p a st).1 (List.nodup_cons.1 hq).2 i h hmem

/-- Any completed drain of the shared queue hands out exactly the queued
entries, in queue order, appended to the entries already handed out. -/
theorem queueStep_run (p : List String × List String) (done : List String)
    (h : Relation.ReflTransGen QueueStep p ([], done)) : done = p.2 ++ p.1 := by
  induction h using Relation.ReflTransGen.head_induction_on with
  | refl => simp
  | head step _ ih =>
      rcases step with ⟨id, rest, d⟩
      rw [ih]
      simp

theorem eligible_ids_nodup (st : EngineState)
    (hids : (st.batch.map BatchItem.id).Nodup) :
    ((eligible st).map BatchItem.id).Nodup := by
  have hsub : List.Sublist ((eligible st).map BatchItem.id) (st.batch.map BatchItem.id) :=
    (List.filter_sublist st.batch).map BatchItem.id
  exact hids.sublist hsub

/-- The zip of a batch with its setItem rewrite pairs every item positionally
with its own rewrite; every pair respects the allowed status transitions
provided the rewrite does so on matching ids. -/
theorem setItem_zip_allowed (id : String) (f : BatchItem → BatchItem) (l : List BatchItem)
    (hf : ∀ y ∈ l, y.id = id → statusStepAllowed y.status (f y).status) :
    ∀ pr ∈ l.zip (setItem id f l), statusStepAllowed pr.1.status pr.2.status := by
  intro pr hpr
  rw [setItem, zip_self_map] at hpr
  rcases List.mem_map.1 hpr with ⟨y, hy, hpr_eq⟩
  subst hpr_eq
  by_cases hyid : y.id = id
  · simpa [if_pos hyid] using hf y hy hyid
  · simp [if_neg hyid, statusStepAllowed]

theorem addFilesToBatch_no_images {fid : Nat → String} {files : List InputFile}
    {st : EngineState} (h : files.filter isImageFile = []) :
    addFilesToBatch fid files st = st := by
  rcases st with ⟨b, m, s, fl⟩
  by_cases h0 : files = []
  · simp [addFilesToBatch, h0]
  · simp [addFilesToBatch, h0, h]

theorem completeItem_of_absent {id : String} {st : EngineState}
    (hne : ∀ x ∈ st.batch, x.id ≠ id) (r : AnalysisResult) :
    completeItem id r st = st := by
  unfold completeItem
  rw [setItem_of_forall_ne hne]

theorem failItem_of_absent {id : String} {st : EngineState}
    (hne : ∀ x ∈ st.batch, x.id ≠ id) (m : String) :
    failItem id m st = st := by
  unfold failItem
  rw [setItem_of_forall_ne hne]

/-- C1 (amended) — intake filtering: submitting any batch of files is
observationally identical to submitting only its image-typed files (non-image
files are silently excluded by the MIME filter before any decode, and no error
of any kind is recorded for them); each image-typed file yields exactly one
new batch item, every new item has status pending, and the selection map is
untouched. -/
theorem addFiles_image_filter (fid : Nat → String) (files : List InputFile)
    (st : EngineState) :
    addFilesToBatch fid files st = addFilesToBatch fid (files.filter isImageFile) st
    ∧ (addFilesToBatch fid files st).batch
        = ((files.filter isImageFile).enum).map (fun q => (mkPendingItem fid q.1 q.2).1)
          ++ st.batch
    ∧ (addFilesToBatch fid files st).batch.length
        = (files.filter isImageFile).length + st.batch.length
    ∧ (∀ n g, ((mkPendingItem fid n g).1).status = Status.pending)
    ∧ (addFilesToBatch fid files st).selectedKeywordsMap = st.selectedKeywordsMap := by
  refine ⟨?_, ?_, ?_, fun n g => rfl, ?_⟩
  · by_cases h1 : files.filter isImageFile = []
    · rw [addFilesToBatch_no_images h1, addFilesToBatch_no_images (by rw [h1]; rfl)]
    · have h0 : files ≠ [] := by
        intro he
        apply h1
        rw [he]
        rfl
      simp [addFilesToBatch, h0, h1, List.filter_filter, Bool.and_self]
  · by_cases h0 : files = []
    · subst h0; simp [addFilesToBatch]
    · simp [addFilesToBatch, h0, List.map_map, Function.comp]
  · by_cases h0 : files = []
    · subst h0; simp [addFilesToBatch]
    · simp [addFilesToBatch, h0]
  · unfold addFilesToBatch
    split
    · rfl
    · rfl

/-- C1 counterexample — no rejection is observable: the state after submitting
an image file together with a non-image file equals the state after
submitting the image file alone, so the non-image file is silently dropped;
no InvalidInputError (indeed no error value at all) exists on this code path.
A single pending item is created, for the image file only. -/
theorem addFiles_no_rejection_cex :
    addFilesToBatch fid0 [imgFile, textFile] st0 = addFilesToBatch fid0 [imgFile] st0
    ∧ (addFilesToBatch fid0 [imgFile, textFile] st0).batch.map BatchItem.status
        = [Status.pending] := by decide

/-- C6 — removal during an in-flight analysis: once removeItem has deleted the
id (here after the processing write that marks the analysis in flight), the
eventual completion write and the eventual failure write for that id are both
exact no-ops on the state (the setItem write finds no matching item, so it is
silently discarded and raises nothing), and no item with that id exists in
any snapshot of the resulting state. -/
theorem removed_item_write_discarded (st : EngineState) (id : String)
    (r : AnalysisResult) (m : String) :
    completeItem id r (removeItem id (startProcessing id st))
      = removeItem id (startProcessing id st)
    ∧ failItem id m (removeItem id (startProcessing id st))
      = removeItem id (startProcessing id st)
    ∧ (removeItem id (startProcessing id st)).batch.filter (fun i => i.id == id) = [] := by
  have hne : ∀ x ∈ (removeItem id (startProcessing id st)).batch, x.id ≠ id := by
    intro x hx
    have h2 := List.of_mem_filter hx
    simpa using h2
  refine ⟨completeItem_of_absent hne r, failItem_of_absent hne m, ?_⟩
  exact List.filter_eq_nil_iff.2 (fun a ha => by simpa using hne a ha)

/-- C10 — analyzeOne on an id present in neither the item store nor the
payload store is a complete no-op: it returns the state unchanged (every write
targets the missing id and has no effect, and the selection map is untouched
because the whole state is unchanged), makes no provider call (the payload
lookup fails before the provider would be invoked), and being a total
function it throws nothing. -/
theorem analyzeSingle_unknown_id (provider : Provider) (id : String) (st : EngineState)
    (hb : st.batch.filter (fun i => i.id == id) = [])
    (hs : assocGet st.base64Store id = none) :
    analyzeSingle provider id st = (st, []) := by
  have hne : ∀ x ∈ st.batch, x.id ≠ id := by
    intro x hx
    have h2 := List.filter_eq_nil_iff.1 hb x hx
    simpa using h2
  have h1 : startProcessing id st = st := by
    unfold startProcessing
    rw [setItem_of_forall_ne hne]
  rw [analyzeSingle_eq_of_none hs, h1, failItem_of_absent hne]

/-- C10 witness: a state holding one item x and its payload, probed at the
absent id ghost. -/
theorem analyzeSingle_unknown_id_witness :
    analyzeSingle failingProvider "ghost" stX = (stX, []) :=
  analyzeSingle_unknown_id failingProvider "ghost" stX (by decide) (by decide)

/-- C9 — resize policy: for positive dimensions, an image whose larger
dimension is within MAX_IMAGE_DIMENSION is passed through unchanged (no
upscaling), and an image whose larger dimension exceeds it comes out with
larger dimension exactly MAX_IMAGE_DIMENSION and both dimensions multiplied by
the common factor MAX_IMAGE_DIMENSION / max(width, height), preserving the
aspect ratio. -/
theorem resizeImage_policy (f : InputFile) (hw : 0 < f.width) (hh : 0 < f.height) :
    (max f.width f.height ≤ MAX_IMAGE_DIMENSION →
        (resizeImage f).width = f.width ∧ (resizeImage f).height = f.height)
    ∧ (MAX_IMAGE_DIMENSION < max f.width f.height →
        max (resizeImage f).width (resizeImage f).height = MAX_IMAGE_DIMENSION
        ∧ (resizeImage f).width
            = f.width * (MAX_IMAGE_DIMENSION / max f.width f.height)
        ∧ (resizeImage f).height
            = f.height * (MAX_IMAGE_DIMENSION / max f.width f.height)) := by
  have hM : (0 : ℚ) < MAX_IMAGE_DIMENSION := by norm_num [MAX_IMAGE_DIMENSION]
  by_cases hcmp : f.width > f.height
  · have hmax : max f.width f.height = f.width := max_eq_left (le_of_lt hcmp)
    by_cases hbig : f.width > MAX_IMAGE_DIMENSION
    · have hres : (resizeImage f).width = MAX_IMAGE_DIMENSION
          ∧ (resizeImage f).height = f.height * (MAX_IMAGE_DIMENSION / f.width) := by
        constructor
        · simp [resizeImage, hcmp, hbig]
        · simp [resizeImage, hcmp, hbig]
      constructor
      · intro hle
        rw [hmax] at hle
        exact absurd (lt_of_lt_of_le hbig hle) (lt_irrefl _)
      · intro _
        have hdiv : 0 ≤ MAX_IMAGE_DIMENSION / f.width := le_of_lt (div_pos hM hw)
        have hle2 : f.height * (MAX_IMAGE_DIMENSION / f.width) ≤ MAX_IMAGE_DIMENSION := by
          calc f.height * (MAX_IMAGE_DIMENSION / f.width)
              ≤ f.width * (MAX_IMAGE_DIMENSION / f.width) :=
                mul_le_mul_of_nonneg_right (le_of_lt hcmp) hdiv
            _ = MAX_IMAGE_DIMENSION := by
                field_simp
        refine ⟨?_, ?_, ?_⟩
        · rw [hres.1, hres.2]
          exact max_eq_left hle2
        · rw [hres.1, hmax]
          field_simp
        · rw [hres.2, hmax]
    · have hres : (resizeImage f).width = f.width ∧ (resizeImage f).height = f.height := by
        constructor
        · simp [resizeImage, hcmp, hbig]
        · simp [resizeImage, hcmp, hbig]
      constructor
      · intro _
        exact hres
      · intro hgt
        rw [hmax] at hgt
        exact absurd hgt (not_lt.2 (le_of_not_lt hbig))
  · have hmax : max f.width f.height = f.height := max_eq_right (le_of_not_lt hcmp)
    by_cases hbig : f.height > MAX_IMAGE_DIMENSION
    · have hres : (resizeImage f).width = f.width * (MAX_IMAGE_DIMENSION / f.height)
          ∧ (resizeImage f).height = MAX_IMAGE_DIMENSION := by
        constructor
        · simp [resizeImage, hcmp, hbig]
        · simp [resizeImage, hcmp, hbig]
      constructor
      · intro hle
        rw [hmax] at hle
        exact absurd (lt_of_lt_of_le hbig hle) (lt_irrefl _)
      · intro _
        have hdiv : 0 ≤ MAX_IMAGE_DIMENSION / f.height := le_of_lt (div_pos hM hh)
        have hle2 : f.width * (MAX_IMAGE_DIMENSION / f.height) ≤ MAX_IMAGE_DIMENSION := by
          calc f.width * (MAX_IMAGE_DIMENSION / f.height)
              ≤ f.height * (MAX_IMAGE_DIMENSION / f.height) :=
                mul_le_mul_of_nonneg_right (le_of_not_lt hcmp) hdiv
            _ = MAX_IMAGE_DIMENSION := by
                field_simp
        refine ⟨?_, ?_, ?_⟩
        · rw [hres.1, hres.2]
          exact max_eq_right hle2
        · rw [hres.1, hmax]
        · rw [hres.2, hmax]
          field_simp
    · have hres : (resizeImage f).width = f.width ∧ (resizeImage f).height = f.height := by
        constructor
        · simp [resizeImage, hcmp, hbig]
        · simp [resizeImage, hcmp, hbig]
      constructor
      · intro _
        exact hres
      · intro hgt
        rw [hmax] at hgt
        exact absurd hgt (not_lt.2 (le_of_not_lt hbig))

/-- C9 witness: the policy applied to the concrete 2048 by 512 image, whose
output has larger dimension exactly MAX_IMAGE_DIMENSION and width scaled by
the common factor. -/
theorem resizeImage_policy_witness :
    MAX_IMAGE_DIMENSION < max bigFile.width bigFile.height
    ∧ max (resizeImage bigFile).width (resizeImage bigFile).height = MAX_IMAGE_DIMENSION
    ∧ (resizeImage bigFile).width
        = bigFile.width * (MAX_IMAGE_DIMENSION / max bigFile.width bigFile.height) := by
  have hlt : MAX_IMAGE_DIMENSION < max bigFile.width bigFile.height := by
    rw [show max bigFile.width bigFile.height = 2048 from by
      norm_num [bigFile, max_eq_left]]
    norm_num [MAX_IMAGE_DIMENSION]
  have h := (resizeImage_policy bigFile (by norm_num [bigFile]) (by norm_num [bigFile])).2 hlt
  exact ⟨hlt, h.1, h.2.1⟩

/-- C2 counterexample — completed is not terminal under analyzeOne: in a state
whose only item is completed, invoking analyzeSingle on that id first rewrites
the item to status processing (its unconditional first write), and with a
failing provider the item then ends in status error; so the transition
completed to processing is observable when analyzeOne is invoked on a
completed id. -/
theorem completed_reprocessed_cex :
    stCompleted.batch.map BatchItem.status = [Status.completed]
    ∧ (startProcessing "x" stCompleted).batch.map BatchItem.status = [Status.processing]
    ∧ (analyzeSingle failingProvider "x" stCompleted).1.batch.map BatchItem.status
        = [Status.error] := by decide

/-- C2 (amended) — per-write status transitions: pairing each item positionally
with its successor across the two observable writes of analyzeSingle, every
status change is along keep, anything to processing (the unconditional first
write of analyzeSingle, which therefore also moves a completed target to
processing), or processing to completed or error; removeItem only deletes
items (every surviving item is unchanged), and addFilesToBatch only adds
pending items (every item of the new state is an old item or pending). -/
theorem engine_status_transitions (provider : Provider) (id : String) (st : EngineState)
    (rid : String) (fid : Nat → String) (files : List InputFile) :
    (∀ pr ∈ st.batch.zip (startProcessing id st).batch,
        statusStepAllowed pr.1.status pr.2.status)
    ∧ (∀ pr ∈ (startProcessing id st).batch.zip (analyzeSingle provider id st).1.batch,
        statusStepAllowed pr.1.status pr.2.status)
    ∧ (∀ j ∈ (removeItem rid st).batch, j ∈ st.batch)
    ∧ (∀ j ∈ (addFilesToBatch fid files st).batch,
        j ∈ st.batch ∨ j.status = Status.pending) := by
  refine ⟨?_, ?_, ?_, ?_⟩
  · exact setItem_zip_allowed id _ st.batch
      (fun y _ _ => Or.inr (Or.inl rfl))
  · obtain ⟨f, hb, hf⟩ := analyzeSingle_batch_spec provider id st
    rw [hb]
    refine setItem_zip_allowed id f (startProcessing id st).batch ?_
    intro y hy hyid
    have hstat := (mem_startProcessing_target hy hyid).1
    rcases hf with ⟨r, hr⟩ | ⟨m, hm⟩
    · exact Or.inr (Or.inr ⟨hstat, Or.inl (by rw [hr y])⟩)
    · exact Or.inr (Or.inr ⟨hstat, Or.inr (by rw [hm y])⟩)
  · intro j hj
    exact List.mem_of_mem_filter hj
  · intro j hj
    by_cases h0 : files = []
    · rw [h0] at hj
      exact Or.inl hj
    · simp only [addFilesToBatch, if_neg h0] at hj
      rcases List.mem_append.1 hj with hl | hr
      · rcases List.mem_map.1 hl with ⟨e, he, hje⟩
        rcases List.mem_map.1 he with ⟨q, hq, heq⟩
        right
        rw [← hje, ← heq]
        rfl
      · exact Or.inl hr

/-- C2 witness: the amended transition theorem applied to the concrete
completed-item state shows the completed-to-processing step is among the
performed transitions. -/
theorem engine_status_transitions_witness :
    statusStepAllowed Status.completed Status.processing := by
  have h := engine_status_transitions failingProvider "x" stCompleted "r" fid0 []
  exact h.1 (completedItem,
    { completedItem with status := Status.processing, error := none }) (by decide)

/-- C3 counterexample — stale result visible: starting from a completed item
holding a result, the first write of analyzeSingle leaves the item with status
processing while the previous result is still present (the write clears only
the error field), and after a failing provider the item sits at status error
still holding that stale result — both states violate result present iff
status completed. -/
theorem stale_result_visible_cex :
    (startProcessing "x" stCompleted).batch.map (fun i => (i.status, i.result))
      = [(Status.processing, some sampleResult)]
    ∧ (analyzeSingle failingProvider "x" stCompleted).1.batch.map
        (fun i => (i.status, i.result, i.error))
      = [(Status.error, some sampleResult, some "boom")] := by decide

/-- C3 (amended) — field consistency: the error field is present exactly on
status error items, and this is preserved by both observable writes of
analyzeSingle (the processing transition clears the error atomically with the
status change); the result field is present exactly on completed items only
as long as analyzeOne is never invoked on a completed item — under that
proviso both writes preserve it — because the processing write does not clear
a stored result. -/
theorem analyzeSingle_field_consistency (provider : Provider) (id : String)
    (st : EngineState) (he : errOk st) :
    errOk (startProcessing id st)
    ∧ errOk (analyzeSingle provider id st).1
    ∧ (resultOk st → (∀ i ∈ st.batch, i.id = id → i.status ≠ Status.completed) →
        resultOk (startProcessing id st) ∧ resultOk (analyzeSingle provider id st).1) := by
  have hestart : errOk (startProcessing id st) := by
    intro i hi
    rcases mem_setItem_iff.1 hi with ⟨y, hy, hiy⟩
    by_cases hyid : y.id = id
    · rw [if_pos hyid] at hiy
      subst hiy
      simp
    · rw [if_neg hyid] at hiy
      rw [hiy]
      exact he y hy
  obtain ⟨f, hb, hf⟩ := analyzeSingle_batch_spec provider id st
  have hefin : errOk (analyzeSingle provider id st).1 := by
    intro i hi
    rw [hb] at hi
    rcases mem_setItem_iff.1 hi with ⟨y, hy, hiy⟩
    by_cases hyid : y.id = id
    · rw [if_pos hyid] at hiy
      subst hiy
      have htgt := mem_startProcessing_target hy hyid
      rcases hf with ⟨r, hr⟩ | ⟨m, hm⟩
      · rw [hr y]
        simp [htgt.2]
      · rw [hm y]
        simp
    · rw [if_neg hyid] at hiy
      rw [hiy]
      exact hestart y hy
  refine ⟨hestart, hefin, ?_⟩
  intro hr0 hnc
  have hrstart : resultOk (startProcessing id st) := by
    intro i hi
    rcases mem_setItem_iff.1 hi with ⟨y, hy, hiy⟩
    by_cases hyid : y.id = id
    · rw [if_pos hyid] at hiy
      subst hiy
      have hyres : y.result = none := by
        have := hr0 y hy
        have hnotc := hnc y hy hyid
        rcases hres : y.result with _ | v
        · rfl
        · exact absurd (this.2 (by simp [hres])) hnotc
      simp [hyres]
    · rw [if_neg hyid] at hiy
      rw [hiy]
      exact hr0 y hy
  refine ⟨hrstart, ?_⟩
  intro i hi
  rw [hb] at hi
  rcases mem_setItem_iff.1 hi with ⟨y, hy, hiy⟩
  by_cases hyid : y.id = id
  · rw [if_pos hyid] at hiy
    subst hiy
    have htgt := mem_startProcessing_target hy hyid
    have hyres : y.result = none := by
      have := hrstart y hy
      rcases hres : y.result with _ | v
      · rfl
      · have hc := this.2 (by simp [hres])
        rw [htgt.1] at hc
        exact absurd hc (by simp)
    rcases hf with ⟨r, hr⟩ | ⟨m, hm⟩
    · rw [hr y]
      simp
    · rw [hm y]
      simp [hyres]
  · rw [if_neg hyid] at hiy
    rw [hiy]
    exact hrstart y hy

/-- C3 witness: the field-consistency theorem applied to the concrete
one-pending-item state. -/
theorem analyzeSingle_field_consistency_witness :
    errOk (startProcessing "x" stX) := by
  have h := analyzeSingle_field_consistency failingProvider "x" stX
    (by unfold errOk; decide)
  exact h.1

/-- C8 counterexample — empty and dangling selection entries: toggling the
same keyword twice for an existing item leaves a selection entry mapped to the
empty list (the write-back is unconditional, the entry is not pruned when it
becomes empty), and toggling a keyword for an id with no item in the store
creates an entry for that nonexistent item. -/
theorem selection_empty_entry_cex :
    (handleToggleKeyword "x" "cat" (handleToggleKeyword "x" "cat" stX)).selectedKeywordsMap
      = [("x", [])]
    ∧ (handleToggleKeyword "ghost" "dog" st0).selectedKeywordsMap
      = [("ghost", ["dog"])] := by decide

/-- C8 (amended) — selection-entry lifecycle: removeItem deletes the selection
entry of the removed id (so after remove no entry for that id remains);
toggleKeyword and selectAll leave entries of other ids untouched; and toggling
off the only selected word of an item leaves the entry present mapped to the
empty set rather than removing it (entries are pruned only by item removal,
and their creation is not conditioned on the item existing). -/
theorem selection_entry_lifecycle (st : EngineState) (id id2 w : String)
    (ws : List KeywordMetadata) :
    assocGet (removeItem id st).selectedKeywordsMap id = none
    ∧ (id2 ≠ id →
        assocGet (handleToggleKeyword id2 w st).selectedKeywordsMap id
          = assocGet st.selectedKeywordsMap id)
    ∧ (id2 ≠ id →
        assocGet (handleSelectAllInItem id2 ws st).selectedKeywordsMap id
          = assocGet st.selectedKeywordsMap id)
    ∧ (assocGet st.selectedKeywordsMap id = some [w] →
        assocGet (handleToggleKeyword id w st).selectedKeywordsMap id = some []) := by
  refine ⟨assocGet_delete _ _, ?_, ?_, ?_⟩
  · intro hne
    exact assocGet_set_ne _ _ _ _ hne
  · intro hne
    exact assocGet_set_ne _ _ _ _ hne
  · intro hget
    unfold handleToggleKeyword
    rw [hget]
    simp only [Option.getD_some, List.mem_singleton, if_pos rfl]
    rw [show ([w].filter (fun k => k != w)) = [] from by simp]
    exact assocGet_set_self _ _ _

/-- C8 witness: the lifecycle theorem applied to the concrete state with one
selected keyword; toggling it off leaves the empty-set entry. -/
theorem selection_entry_lifecycle_witness :
    assocGet (handleToggleKeyword "x" "cat" stSel).selectedKeywordsMap "x" = some [] :=
  (selection_entry_lifecycle stSel "x" "y" "cat" []).2.2.2 (by decide)

/-- C4 counterexample — worker count under the in-progress guard: in a store
state with one eligible item but with a batch run already in progress,
processAll creates zero workers, not min(CONCURRENCY_LIMIT, queueLength) = 1;
so the launch-count formula does not hold for every store state. -/
theorem worker_count_guard_cex :
    (eligible stBusy).length = 1
    ∧ (processAll failingProvider stBusy).workers = 0
    ∧ (processAll failingProvider stBusy).workers
        ≠ min CONCURRENCY_LIMIT (eligible stBusy).length := by decide

/-- C4 (amended) — worker count: when no batch run is in progress, processAll
creates exactly min(CONCURRENCY_LIMIT, queueLength) workers where queueLength
counts the pending-or-error items at invocation (including zero workers for an
empty queue); when a run is already in progress it creates none; in every
case at most CONCURRENCY_LIMIT = 5 workers exist, bounding the provider calls
in flight from one batch run by 5 regardless of queue length. -/
theorem processAll_worker_count (provider : Provider) (st : EngineState) :
    (st.isProcessingAll = false →
        (processAll provider st).workers = min CONCURRENCY_LIMIT (eligible st).length)
    ∧ (st.isProcessingAll = true → (processAll provider st).workers = 0)
    ∧ (processAll provider st).workers ≤ CONCURRENCY_LIMIT
    ∧ CONCURRENCY_LIMIT = 5 := by
  refine ⟨?_, ?_, ?_, rfl⟩
  · intro hflag
    by_cases he : eligible st = []
    · simp [processAll, he]
    · simp [processAll, he, hflag]
  · intro hflag
    simp [processAll, hflag]
  · by_cases he : eligible st = []
    · simp [processAll, he]
    · by_cases hflag : st.isProcessingAll = true
      · simp [processAll, hflag]
      · simp only [processAll, if_neg (not_or.2 ⟨he, hflag⟩)]
        exact min_le_left _ _

/-- C4 witness: with seven pending items and no run in progress, the formula
gives min(5, 7) = 5 workers. -/
theorem processAll_worker_count_witness :
    (processAll failingProvider st7).workers = min CONCURRENCY_LIMIT (eligible st7).length
    ∧ min CONCURRENCY_LIMIT (eligible st7).length = 5 :=
  ⟨(processAll_worker_count failingProvider st7).1 rfl, by decide⟩

/-- C5 — snapshot semantics of processAll: any complete drain of the shared
worker queue hands out exactly the ids of the items that were pending or
error at invocation, in snapshot order, each exactly once (the handed-out
list is duplicate-free, so no item is claimed by two workers); items that are
processing or completed at invocation are never handed out; when the run
proceeds, the final state is exactly the queue drain (one analyzeSingle per
handed-out id) over that snapshot; and when the snapshot is empty or a run is
already in progress, processAll returns the state unchanged, so a snapshot
taken before and after it is structurally identical. -/
theorem processAll_snapshot_run (provider : Provider) (st : EngineState)
    (done : List String) (hids : (st.batch.map BatchItem.id).Nodup)
    (hrun : Relation.ReflTransGen QueueStep
      ((eligible st).map BatchItem.id, []) ([], done)) :
    done = (eligible st).map BatchItem.id
    ∧ done.Nodup
    ∧ (∀ i ∈ st.batch, i.status = Status.processing ∨ i.status = Status.completed →
        i.id ∉ done)
    ∧ (st.isProcessingAll = false → eligible st ≠ [] →
        (processAll provider st).finalState
          = { (runQueue provider done { st with isProcessingAll := true }).1
                with isProcessingAll := false })
    ∧ (eligible st = [] ∨ st.isProcessingAll = true →
        processAll provider st = { finalState := st, providerCalls := [], workers := 0 }) := by
  have hdone : done = (eligible st).map BatchItem.id := by
    have h := queueStep_run _ done hrun
    simpa using h
  refine ⟨hdone, ?_, ?_, ?_, ?_⟩
  · rw [hdone]
    exact eligible_ids_nodup st hids
  · intro i hi hstat hmem
    rw [hdone] at hmem
    rcases List.mem_map.1 hmem with ⟨j, hj, hjid⟩
    have hjb : j ∈ st.batch := List.mem_of_mem_filter hj
    have hji : j = i := List.inj_on_of_nodup_map hids hjb hi hjid
    subst hji
    have hp := List.of_mem_filter hj
    simp only [Bool.or_eq_true, beq_iff_eq] at hp
    rcases hstat with h1 | h1 <;> rcases hp with h2 | h2 <;>
      rw [h1] at h2 <;> exact Status.noConfusion h2
  · intro hflag hne
    rw [hdone]
    have hcond : ¬(eligible st = [] ∨ st.isProcessingAll = true) :=
      not_or.2 ⟨hne, fun h2 => Bool.noConfusion (hflag.symm.trans h2)⟩
    simp only [processAll, if_neg hcond]
  · intro hguard
    simp only [processAll, if_pos hguard]

/-- C5 witness: for the concrete two-pending-item state, the explicit drain
handing out a then b is a complete run, and it equals the eligible snapshot
ids, duplicate-free. -/
theorem processAll_snapshot_run_witness :
    (["a", "b"] : List String) = (eligible stMix).map BatchItem.id
    ∧ (["a", "b"] : List String).Nodup := by
  have hrun : Relation.ReflTransGen QueueStep ((eligible stMix).map BatchItem.id, [])
      ([], ["a", "b"]) := by
    rw [show (eligible stMix).map BatchItem.id = ["a", "b"] from by decide]
    exact Relation.ReflTransGen.head (QueueStep.dequeue "a" ["b"] [])
      (Relation.ReflTransGen.head (QueueStep.dequeue "b" [] ["a"])
        Relation.ReflTransGen.refl)
  have h := processAll_snapshot_run provMix stMix ["a", "b"] (by decide) hrun
  exact ⟨h.1, h.2.1⟩

/-- C7 — partial-failure semantics: analyzeSingle is a total function (nothing
escapes it: the source catches every thrown provider error) and on a provider
failure it records status error with the caught message on the targeted item;
after a processAll run (with no run previously in progress) every item that
was in the eligible snapshot is in a terminal state, completed or error, so
individual failures never abort sibling work and the run terminates with each
snapshotted item settled. -/
theorem batch_run_partial_failure (provider : Provider) (st : EngineState)
    (hids : (st.batch.map BatchItem.id).Nodup) (hflag : st.isProcessingAll = false) :
    (∀ i ∈ (processAll provider st).finalState.batch,
        i.id ∈ (eligible st).map BatchItem.id →
        i.status = Status.completed ∨ i.status = Status.error)
    ∧ (∀ id2 d m, assocGet st.base64Store id2 = some d →
        provider d = ProviderOutcome.failure m →
        ∀ i ∈ (analyzeSingle provider id2 st).1.batch, i.id = id2 →
          i.status = Status.error ∧ i.error = some m) := by
  constructor
  · intro i hi hmem
    by_cases he : eligible st = []
    · rw [he] at hmem
      simp at hmem
    · have hq : ((eligible st).map BatchItem.id).Nodup := eligible_ids_nodup st hids
      have hcond : ¬(eligible st = [] ∨ st.isProcessingAll = true) :=
        not_or.2 ⟨he, fun h2 => Bool.noConfusion (hflag.symm.trans h2)⟩
      have hfs : (processAll provider st).finalState.batch
          = (runQueue provider ((eligible st).map BatchItem.id)
              { st with isProcessingAll := true }).1.batch := by
        simp only [processAll, if_neg hcond]
      rw [hfs] at hi
      exact runQueue_terminal provider _ _ hq i hi hmem
  · intro id2 d m hs hp i hi hid
    rw [analyzeSingle_eq_of_failure hs hp] at hi
    exact failItem_target hi hid

/-- C7 witness: in the concrete two-item run under the mixed provider, the
item a of the final state (which was in the eligible snapshot) is terminal. -/
theorem batch_run_partial_failure_witness :
    itemAfterA.status = Status.completed ∨ itemAfterA.status = Status.error :=
  (batch_run_partial_failure provMix stMix (by decide) rfl).1 itemAfterA
    (by decide) (by decide)

end Tagline
